import Mathlib

set_option linter.unusedVariables false

/-!
Verification of the snapshot capture-and-replay diffing engine
(`replay/replay/__init__.py`, `replay/analytics/trends.py`) and of the
capture-session naming contract.

JSON-like values (the payloads of snapshots and metadata records) are
embedded as a mutual inductive type `Json` / `JList` / `JObj`; Python
`None` and JSON `null` are both `Json.null`, numbers are modelled as
integers, objects are insertion-ordered key/value sequences (Python
dicts, so keys are unique in every value the program actually builds;
well-formedness is the predicate `jWF`).
-/

mutual

inductive Json where
  | null
  | bool (b : Bool)
  | num (n : Int)
  | str (s : String)
  | arr (xs : JList)
  | obj (kvs : JObj)
  deriving DecidableEq, Repr

inductive JList where
  | nil
  | cons (hd : Json) (tl : JList)
  deriving DecidableEq, Repr

inductive JObj where
  | nil
  | cons (k : String) (v : Json) (tl : JObj)
  deriving DecidableEq, Repr

end

/-- Look up the value stored at key `k` (first occurrence wins, as in a
Python dict, whose keys are unique). -/
def JObj.find? : JObj → String → Option Json
  | .nil, _ => none
  | .cons k v t, key => if k = key then some v else t.find? key

/-- Check that an object has the key `k`. -/
def JObj.hasKey (o : JObj) (key : String) : Bool :=
  (o.find? key).isSome

/-- Keys of an object in insertion order. -/
def JObj.keys : JObj → List String
  | .nil => []
  | .cons k _ t => k :: t.keys

mutual

/-- Predicate for well-formed values: every object in the tree has
pairwise distinct keys, as is guaranteed for any value obtained from
`json.loads` or built from Python dicts. -/
def jWF : Json → Bool
  | .null | .bool _ | .num _ | .str _ => true
  | .arr xs => jlWF xs
  | .obj kvs => joKeysOk kvs && joWF kvs

def jlWF : JList → Bool
  | .nil => true
  | .cons h t => jWF h && jlWF t

def joWF : JObj → Bool
  | .nil => true
  | .cons _ v t => jWF v && joWF t

def joKeysOk : JObj → Bool
  | .nil => true
  | .cons k _ t => !t.hasKey k && joKeysOk t

end

/-!
Model of the third-party `deepdiff.DeepDiff` comparison as invoked by
`compute_diff` (default options, `verbose_level=1`).  The categories the
caller reads are kept, plus the iterable categories that it ignores:

* keys present only in the second dict: `dictionary_item_added` paths;
* keys present only in the first dict: `dictionary_item_removed` paths;
* same-kind scalars with different values: `values_changed`;
* values of different runtime type (including `null` against anything
  else): `type_changes`;
* dicts and ordered iterables are compared recursively, iterables
  positionally, index by index, with surplus trailing elements reported
  as `iterable_item_added` / `iterable_item_removed`.

The positional iterable rule is the library's behaviour for sequences
it pairs index by index (sequences holding nested containers, and all
sequences in its older versions); modern versions align all-scalar
sequences through difflib instead, and that alignment is
direction-asymmetric.  Every theorem below that involves arrays
therefore stays inside cases where the two regimes agree (positional
pairing of nested containers, trailing-only divergence), and the
symmetry law is stated on array-free values only.

Paths are rendered in DeepDiff notation rooted at `"root"`:
`root['key']` for dict keys and `root[i]` for list indexes.
-/

structure DeepDiffResult where
  dictionary_item_added : List String
  dictionary_item_removed : List String
  values_changed : List (String × Json × Json)
  type_changes : List (String × Json × Json)
  iterable_item_added : List (String × Json)
  iterable_item_removed : List (String × Json)
  deriving DecidableEq, Repr

def DeepDiffResult.empty : DeepDiffResult := ⟨[], [], [], [], [], []⟩

/-- Componentwise union of two diff results (concatenation preserving
traversal order). -/
def DeepDiffResult.union (a b : DeepDiffResult) : DeepDiffResult :=
  ⟨a.dictionary_item_added ++ b.dictionary_item_added,
   a.dictionary_item_removed ++ b.dictionary_item_removed,
   a.values_changed ++ b.values_changed,
   a.type_changes ++ b.type_changes,
   a.iterable_item_added ++ b.iterable_item_added,
   a.iterable_item_removed ++ b.iterable_item_removed⟩

/-- DeepDiff path of a dict key below `p`. -/
def dictPath (p k : String) : String := p ++ "['" ++ k ++ "']"

/-- DeepDiff path of a list index below `p`. -/
def idxPath (p : String) (i : Nat) : String := p ++ "[" ++ toString i ++ "]"

/-- Tag for two values of the same scalar kind (`values_changed` when
unequal) as opposed to different runtime types (`type_changes`). -/
def sameKind : Json → Json → Bool
  | .null, .null => true
  | .bool _, .bool _ => true
  | .num _, .num _ => true
  | .str _, .str _ => true
  | .arr _, .arr _ => true
  | .obj _, .obj _ => true
  | _, _ => false

/-- Surplus trailing elements of an iterable, paired with their paths
starting at index `i`. -/
def surplusItems : JList → String → Nat → List (String × Json)
  | .nil, _, _ => []
  | .cons y ys, p, i => (idxPath p i, y) :: surplusItems ys p (i + 1)

mutual

/-- Model of `DeepDiff(t1, t2)` at path `p`. -/
def deepDiffAt : Json → Json → String → DeepDiffResult
  | .null, .null, _ => .empty
  | .bool a, .bool b, p =>
      if a = b then .empty else { DeepDiffResult.empty with values_changed := [(p, .bool a, .bool b)] }
  | .num a, .num b, p =>
      if a = b then .empty else { DeepDiffResult.empty with values_changed := [(p, .num a, .num b)] }
  | .str a, .str b, p =>
      if a = b then .empty else { DeepDiffResult.empty with values_changed := [(p, .str a, .str b)] }
  | .arr xs, .arr ys, p => deepDiffList xs ys p 0
  | .obj xs, .obj ys, p =>
      let added : DeepDiffResult :=
        { DeepDiffResult.empty with
          dictionary_item_added := (ys.keys.filter (fun k => !xs.hasKey k)).map (dictPath p) }
      let removed : DeepDiffResult :=
        { DeepDiffResult.empty with
          dictionary_item_removed := (xs.keys.filter (fun k => !ys.hasKey k)).map (dictPath p) }
      (added.union removed).union (deepDiffObj xs ys p)
  | t1, t2, p => { DeepDiffResult.empty with type_changes := [(p, t1, t2)] }

/-- Positional comparison of two ordered iterables starting at index `i`. -/
def deepDiffList : JList → JList → String → Nat → DeepDiffResult
  | .nil, .nil, _, _ => .empty
  | .cons x xs, .cons y ys, p, i =>
      (deepDiffAt x y (idxPath p i)).union (deepDiffList xs ys p (i + 1))
  | .nil, .cons y ys, p, i =>
      { DeepDiffResult.empty with iterable_item_added := surplusItems (.cons y ys) p i }
  | .cons x xs, .nil, p, i =>
      { DeepDiffResult.empty with iterable_item_removed := surplusItems (.cons x xs) p i }

/-- Recursive comparison of the values stored under the keys the first
dict shares with the second. -/
def deepDiffObj : JObj → JObj → String → DeepDiffResult
  | .nil, _, _ => .empty
  | .cons k v t, ys, p =>
      (match ys.find? k with
       | some w => deepDiffAt v w (dictPath p k)
       | none => .empty).union (deepDiffObj t ys p)

end

/-- Model of `DeepDiff(before, after, verbose_level=1)`. -/
def DeepDiff (t1 t2 : Json) : DeepDiffResult :=
  deepDiffAt t1 t2 "root"

/-- Embedding of the `HopDiff` dataclass.  `old_value`/`new_value` are
`none` for the `added`/`removed` kinds (the Python code stores `None`
there) and carry the compared values otherwise. -/
structure HopDiff where
  hop_name : String
  path : String
  old_value : Option Json
  new_value : Option Json
  diff_type : String
  deriving DecidableEq, Repr

/-- Embedding of `compute_diff(before, after, path="")`: returns `[]`
when either input is `None`, otherwise translates only the
`dictionary_item_added`, `dictionary_item_removed`, `values_changed` and
`type_changes` categories of the DeepDiff result, in that order.  The
`path` parameter is accepted but, as in the source, never used. -/
def compute_diff (before after : Json) (path : String) : List HopDiff :=
  if before = .null ∨ after = .null then []
  else
    let deep_diff := DeepDiff before after
    (deep_diff.dictionary_item_added.map fun item =>
      { hop_name := item, path := item, old_value := none, new_value := none,
        diff_type := "added" })
    ++ (deep_diff.dictionary_item_removed.map fun item =>
      { hop_name := item, path := item, old_value := none, new_value := none,
        diff_type := "removed" })
    ++ (deep_diff.values_changed.map fun pv =>
      { hop_name := pv.1, path := pv.1, old_value := some pv.2.1,
        new_value := some pv.2.2, diff_type := "changed" })
    ++ (deep_diff.type_changes.map fun pv =>
      { hop_name := pv.1, path := pv.1, old_value := some pv.2.1,
        new_value := some pv.2.2, diff_type := "type_changed" })

example :
    compute_diff (.obj (.cons "id" (.num 1) .nil)) (.obj (.cons "id" (.num 2) .nil)) "" =
      [{ hop_name := "root['id']", path := "root['id']", old_value := some (.num 1),
         new_value := some (.num 2), diff_type := "changed" }] := by decide

example :
    compute_diff (.obj (.cons "a" (.num 1) .nil))
      (.obj (.cons "a" (.num 1) (.cons "b" (.num 2) .nil))) "" =
      [{ hop_name := "root['b']", path := "root['b']", old_value := none,
         new_value := none, diff_type := "added" }] := by decide

example :
    compute_diff (.arr (.cons (.num 1) .nil))
      (.arr (.cons (.num 1) (.cons (.num 2) .nil))) "" = [] := by decide

/-!
Embedding of the snapshot loader and the replay engine
(`load_session`, `replay_session`).  The filesystem is abstracted one
level up: a capture directory is a list of sessions, each session a
list of the `*.json` files of its directory, each file carrying the
outcome of `json.loads` on its text — `none` models a file skipped by
the `except (json.JSONDecodeError, OSError)` handler (unreadable or
malformed), `some data` a successfully parsed snapshot object.
-/

/-- String stored in a JSON value, following the dataclass annotation
(non-string data in a string-typed field is out of the program's data
model and is represented by the default). -/
def jStr : Json → String
  | .str s => s
  | _ => ""

/-- Numeric value stored in a JSON value (timestamps). -/
def jNum : Json → Int
  | .num n => n
  | _ => 0

/-- Boolean stored in a JSON value. -/
def jBool : Json → Bool
  | .bool b => b
  | _ => false

/-- Model of `data.get(key, default)` on a parsed JSON object. -/
def oGet (data : JObj) (key : String) (default : Json) : Json :=
  (data.find? key).getD default

/-- Embedding of the `SnapshotData` dataclass. -/
structure SnapshotData where
  capture_point : String
  session : String
  timestamp : Int
  endpoint : String
  method : String
  request_payload : Json
  request_headers : Json
  response_status : Json
  response_payload : Json
  streaming : Bool
  chat_context : Json
  deriving DecidableEq, Repr

/-- Construction of a `SnapshotData` from one parsed snapshot file, with
the same `data.get` defaults as the source. -/
def snapshotOfJson (data : JObj) : SnapshotData :=
  { capture_point := jStr (oGet data "capture_point" (.str ""))
    session := jStr (oGet data "session" (.str ""))
    timestamp := jNum (oGet data "timestamp" (.num 0))
    endpoint := jStr (oGet data "endpoint" (.str ""))
    method := jStr (oGet data "method" (.str ""))
    request_payload := oGet data "request_payload" .null
    request_headers := oGet data "request_headers" .null
    response_status := oGet data "response_status" .null
    response_payload := oGet data "response_payload" .null
    streaming := jBool (oGet data "streaming" (.bool false))
    chat_context := oGet data "chat_context" .null }

/-- One `*.json` file of a session directory: its filename and the
outcome of reading and parsing it (`none` = unreadable or malformed). -/
structure SessionFile where
  name : String
  content : Option JObj
  deriving DecidableEq, Repr

/-- Capture root: session directories by name with their files. -/
abbrev CaptureDir := List (String × List SessionFile)

/-- Stable insertion into a list sorted by the strict order `lt`: the
new element goes before the first element it does not strictly follow,
so elements with equal keys keep their original order, as with Python's
stable `sorted`. -/
def insertByLt (lt : α → α → Bool) (x : α) : List α → List α
  | [] => [x]
  | y :: ys => if lt y x then y :: insertByLt lt x ys else x :: y :: ys

/-- Stable sort by the strict order `lt` (model of Python `sorted`). -/
def sortByLt (lt : α → α → Bool) : List α → List α
  | [] => []
  | x :: xs => insertByLt lt x (sortByLt lt xs)

/-- Lexicographic string comparison by code point (the order Python
uses on filenames), stated over the character lists so that it
evaluates inside the kernel. -/
def strLtB (a b : String) : Bool := decide (a.data < b.data)

/-- Embedding of `load_session(capture_dir, session_name)`: a missing
session directory yields `[]`; otherwise the `*.json` files are visited
in sorted filename order, files that fail to read or parse are skipped,
and the parsed snapshots are returned sorted by timestamp. -/
def load_session (capture_dir : CaptureDir) (session_name : String) :
    List SnapshotData :=
  match capture_dir.lookup session_name with
  | none => []
  | some files =>
    let sorted_files := sortByLt (fun a b => strLtB a.name b.name) files
    let snapshots := sorted_files.filterMap (fun f => f.content.map snapshotOfJson)
    sortByLt (fun a b => decide (a.timestamp < b.timestamp)) snapshots

/-- Pipeline stages in order (`DEFAULT_PIPELINE_STAGES`). -/
def DEFAULT_PIPELINE_STAGES : List String :=
  ["web-ingest", "phone-sync-request", "completion-received", "backend-stored"]

/-- Embedding of the `ReplayResult` dataclass. -/
structure ReplayResult where
  session_name : String
  snapshots : List SnapshotData
  diffs : List HopDiff
  first_corruption_hop : Option String
  is_clean : Bool
  deriving DecidableEq, Repr

/-- Model of `stages = pipeline_stages or DEFAULT_PIPELINE_STAGES`:
`None` and the (falsy) empty list both select the defaults. -/
def effectiveStages : Option (List String) → List String
  | none => DEFAULT_PIPELINE_STAGES
  | some [] => DEFAULT_PIPELINE_STAGES
  | some stages => stages

/-- One step of the grouping loop: a snapshot is recorded under its
capture point only if that capture point has not been seen yet. -/
def addFirst (by_point : List (String × SnapshotData)) (snap : SnapshotData) :
    List (String × SnapshotData) :=
  if (by_point.lookup snap.capture_point).isSome then by_point
  else by_point ++ [(snap.capture_point, snap)]

/-- Grouping of snapshots by capture point, keeping the first snapshot
of each capture point. -/
def groupByPoint (snapshots : List SnapshotData) : List (String × SnapshotData) :=
  snapshots.foldl addFirst []

/-- The stage-comparison loop of `replay_session`: walks the stages in
order carrying the previous present stage, the accumulated diffs and
the first corruption hop; a stage absent from the grouped map is
skipped without becoming the previous stage. -/
def replayLoop (by_point : List (String × SnapshotData)) :
    List String → Option SnapshotData → List HopDiff → Option String →
    List HopDiff × Option String
  | [], _, all_diffs, first_corruption => (all_diffs, first_corruption)
  | stage :: rest, prev_snap, all_diffs, first_corruption =>
    match by_point.lookup stage with
    | none => replayLoop by_point rest prev_snap all_diffs first_corruption
    | some curr_snap =>
      match prev_snap with
      | none => replayLoop by_point rest (some curr_snap) all_diffs first_corruption
      | some prev =>
        let diffs := compute_diff prev.response_payload curr_snap.response_payload
          (prev.capture_point ++ " -> " ++ curr_snap.capture_point)
        let first_corruption :=
          if !diffs.isEmpty && first_corruption.isNone then some curr_snap.capture_point
          else first_corruption
        replayLoop by_point rest (some curr_snap) (all_diffs ++ diffs) first_corruption

/-- Embedding of `replay_session(capture_dir, session_name,
pipeline_stages)`. -/
def replay_session (capture_dir : CaptureDir) (session_name : String)
    (pipeline_stages : Option (List String)) : ReplayResult :=
  let stages := effectiveStages pipeline_stages
  let snapshots := load_session capture_dir session_name
  if snapshots.isEmpty then
    { session_name := session_name, snapshots := [], diffs := [],
      first_corruption_hop := none, is_clean := true }
  else
    let by_point := groupByPoint snapshots
    let result := replayLoop by_point stages none [] none
    { session_name := session_name, snapshots := snapshots, diffs := result.1,
      first_corruption_hop := result.2, is_clean := result.1.length == 0 }

/-- Snapshot object as written by the repository's own replay test
fixture for the `web-ingest` stage. -/
def fixtureIngest : JObj :=
  .cons "capture_point" (.str "web-ingest")
    (.cons "session" (.str "test-session")
      (.cons "timestamp" (.num 1000)
        (.cons "response_payload"
          (.obj (.cons "id" (.str "123") (.cons "title" (.str "Morning Run") .nil)))
          .nil)))

/-- Snapshot object for the `backend-stored` stage with one added key in
its response payload. -/
def fixtureStored : JObj :=
  .cons "capture_point" (.str "backend-stored")
    (.cons "session" (.str "test-session")
      (.cons "timestamp" (.num 1001)
        (.cons "response_payload"
          (.obj (.cons "id" (.str "123")
            (.cons "title" (.str "Morning Run")
              (.cons "source" (.str "youtube") .nil))))
          .nil)))

/-- Capture directory with the two-stage fixture session. -/
def fixtureDir : CaptureDir :=
  [("test-session",
    [⟨"001_web-ingest.json", some fixtureIngest⟩,
     ⟨"002_backend-stored.json", some fixtureStored⟩])]

example :
    (replay_session fixtureDir "test-session" none).first_corruption_hop =
      some "backend-stored" := by decide

example : (replay_session fixtureDir "test-session" none).is_clean = false := by decide

example : (replay_session fixtureDir "nonexistent" none).snapshots = [] := by decide

/-!
Claims C4, C5, C6: invariants of `replay_session` and the null guard of
`compute_diff`.
-/

/-- C4: for every `ReplayResult` returned by `replay_session` (including
the empty-session case and any `pipeline_stages` argument), `is_clean`
is true if and only if the result's `diffs` list is empty. -/
theorem C4_is_clean_iff_diffs_empty (capture_dir : CaptureDir)
    (session_name : String) (pipeline_stages : Option (List String)) :
    (replay_session capture_dir session_name pipeline_stages).is_clean = true ↔
      (replay_session capture_dir session_name pipeline_stages).diffs = [] := by
  unfold replay_session
  by_cases h : (load_session capture_dir session_name).isEmpty
  · simp [h]
  · simp only [h, if_false, Bool.if_false_left]
    simp [List.length_eq_zero]

/-- C5: whenever loading yields zero snapshots (missing session
directory or no readable snapshot file), `replay_session` returns the
otherwise-empty result with `snapshots = []`, `diffs = []`,
`first_corruption_hop = none` and `is_clean = true`. -/
theorem C5_empty_session_result (capture_dir : CaptureDir)
    (session_name : String) (pipeline_stages : Option (List String))
    (h : load_session capture_dir session_name = []) :
    replay_session capture_dir session_name pipeline_stages =
      { session_name := session_name, snapshots := [], diffs := [],
        first_corruption_hop := none, is_clean := true } := by
  unfold replay_session
  simp [h]

/-- Witness for C5 at a capture root with no session directory at
all. -/
theorem C5_empty_session_result_witness :
    replay_session [] "missing-session" none =
      { session_name := "missing-session", snapshots := [], diffs := [],
        first_corruption_hop := none, is_clean := true } :=
  C5_empty_session_result [] "missing-session" none (by decide)

/-- C6: `compute_diff` returns the empty sequence whenever either input
is absent (`None`), instead of raising or reporting a difference. -/
theorem C6_null_inputs_empty (before after : Json) (path : String)
    (h : before = .null ∨ after = .null) :
    compute_diff before after path = [] := by
  unfold compute_diff
  simp [h]

/-- Witness for C6 with an absent `before` and a present `after`. -/
theorem C6_null_inputs_empty_witness :
    compute_diff .null (.obj (.cons "id" (.num 1) .nil)) "" = [] :=
  C6_null_inputs_empty .null (.obj (.cons "id" (.num 1) .nil)) "" (Or.inl rfl)

/-!
Claim C2: the spec says each `HopDiff` produced by a stage-to-stage
comparison has its hop name tagged `"{prev} -> {curr}"`, and
`replay_session` indeed passes exactly that string as the `path`
argument of `compute_diff` — but `compute_diff` never uses its `path`
parameter and stores the DeepDiff path of the differing field in
`hop_name` instead, so the tag is silently dropped.
-/

/-- Session directory with a `web-ingest` and a `backend-stored`
snapshot whose response payloads differ in the value of `id`. -/
def hopTagDir : CaptureDir :=
  [("hop-session",
    [⟨"001_web-ingest.json",
      some (.cons "capture_point" (.str "web-ingest")
        (.cons "timestamp" (.num 1000)
          (.cons "response_payload" (.obj (.cons "id" (.num 1) .nil)) .nil)))⟩,
     ⟨"002_backend-stored.json",
      some (.cons "capture_point" (.str "backend-stored")
        (.cons "timestamp" (.num 1001)
          (.cons "response_payload" (.obj (.cons "id" (.num 2) .nil)) .nil)))⟩])]

/-- C2: evaluation at the failing input.  The only produced `HopDiff`
carries `hop_name = "root['id']"` (the DeepDiff path), and no produced
`HopDiff` has the hop name `"web-ingest -> backend-stored"` that the
spec prescribes for this comparison. -/
theorem C2_hop_name_is_deepdiff_path :
    (replay_session hopTagDir "hop-session" none).diffs =
      [{ hop_name := "root['id']", path := "root['id']",
         old_value := some (.num 1), new_value := some (.num 2),
         diff_type := "changed" }] ∧
    ((replay_session hopTagDir "hop-session" none).diffs.all
      (fun d => d.hop_name != "web-ingest -> backend-stored")) = true := by decide

/-!
Claim C3: the claim states that any two values differing only by
elements inserted into or removed from arrays diff as clean.  The
relation `InsDel` makes "differ only by elements inserted into or
removed from arrays" precise: equal scalars, objects with identical
keys and related values, and arrays related through an alignment that
may skip (insert/remove) whole elements.  The claim fails: an
insertion or removal that shifts the pairing of the remaining elements
surfaces as a `changed`/`type_changed` diff, because the iterable
comparison pairs elements positionally.
-/

mutual

inductive InsDel : Json → Json → Prop where
  | null : InsDel .null .null
  | bool (b : Bool) : InsDel (.bool b) (.bool b)
  | num (n : Int) : InsDel (.num n) (.num n)
  | str (s : String) : InsDel (.str s) (.str s)
  | arr {xs ys : JList} : InsDelList xs ys → InsDel (.arr xs) (.arr ys)
  | obj {xs ys : JObj} : InsDelObj xs ys → InsDel (.obj xs) (.obj ys)

inductive InsDelList : JList → JList → Prop where
  | nil : InsDelList .nil .nil
  | insert {xs ys : JList} (y : Json) : InsDelList xs ys → InsDelList xs (.cons y ys)
  | remove {xs ys : JList} (x : Json) : InsDelList xs ys → InsDelList (.cons x xs) ys
  | step {x y : Json} {xs ys : JList} :
      InsDel x y → InsDelList xs ys → InsDelList (.cons x xs) (.cons y ys)

inductive InsDelObj : JObj → JObj → Prop where
  | nil : InsDelObj .nil .nil
  | cons {v w : Json} {xs ys : JObj} (k : String) :
      InsDel v w → InsDelObj xs ys → InsDelObj (.cons k v xs) (.cons k w ys)

end

/-- First value of the C3 counterexample: the array `[0, [1]]`. -/
def insDelBefore : Json :=
  .arr (.cons (.num 0) (.cons (.arr (.cons (.num 1) .nil)) .nil))

/-- Second value of the C3 counterexample: the array `[[1, 2]]`,
obtained from `[0, [1]]` by removing the element `0` and inserting the
element `2` into the inner array. -/
def insDelAfter : Json :=
  .arr (.cons (.arr (.cons (.num 1) (.cons (.num 2) .nil))) .nil)

/-- C3 counterexample: `[0, [1]]` and `[[1, 2]]` differ only by one
array-element removal and one array-element insertion (witnessed by
`InsDel`), yet `compute_diff` reports a `type_changed` diff at
`root[0]` — the removal shifts the positional pairing, so the pair is
not reported clean. -/
theorem C3_counterexample_shifted_insertion :
    InsDel insDelBefore insDelAfter ∧
    compute_diff insDelBefore insDelAfter "" =
      [{ hop_name := "root[0]", path := "root[0]",
         old_value := some (.num 0),
         new_value := some (.arr (.cons (.num 1) (.cons (.num 2) .nil))),
         diff_type := "type_changed" }] ∧
    compute_diff insDelBefore insDelAfter "" ≠ [] := by
  refine ⟨.arr (.remove _ (.step (.arr (.step (.num 1) (.insert _ .nil))) .nil)), ?_, ?_⟩
  · decide
  · decide

mutual

/-- Restriction of the C3 relation under which the claim does hold:
the two values agree everywhere except that arrays may gain or lose
trailing elements (recursively), so no element changes its index. -/
def tailDiffOnly : Json → Json → Bool
  | .null, .null => true
  | .bool a, .bool b => a == b
  | .num a, .num b => a == b
  | .str a, .str b => a == b
  | .arr xs, .arr ys => tailDiffList xs ys
  | .obj xs, .obj ys => tailDiffObj xs ys
  | _, _ => false

def tailDiffList : JList → JList → Bool
  | .nil, _ => true
  | _, .nil => true
  | .cons x xs, .cons y ys => tailDiffOnly x y && tailDiffList xs ys

def tailDiffObj : JObj → JObj → Bool
  | .nil, .nil => true
  | .cons k v xs, .cons k2 w ys => k == k2 && tailDiffOnly v w && tailDiffObj xs ys
  | _, _ => false

end

/-- Emptiness of the four DeepDiff categories that `compute_diff`
translates (the iterable categories may still be populated). -/
def ReadCatsEmpty (d : DeepDiffResult) : Prop :=
  d.dictionary_item_added = [] ∧ d.dictionary_item_removed = [] ∧
    d.values_changed = [] ∧ d.type_changes = []

theorem readCatsEmpty_union {d e : DeepDiffResult}
    (hd : ReadCatsEmpty d) (he : ReadCatsEmpty e) : ReadCatsEmpty (d.union e) := by
  obtain ⟨h1, h2, h3, h4⟩ := hd
  obtain ⟨g1, g2, g3, g4⟩ := he
  exact ⟨by simp [DeepDiffResult.union, h1, g1], by simp [DeepDiffResult.union, h2, g2],
    by simp [DeepDiffResult.union, h3, g3], by simp [DeepDiffResult.union, h4, g4]⟩

theorem keys_eq_of_tailDiffObj : ∀ (xs ys : JObj), tailDiffObj xs ys = true →
    xs.keys = ys.keys
  | .nil, .nil, _ => rfl
  | .nil, .cons _ _ _, h => by simp [tailDiffObj] at h
  | .cons _ _ _, .nil, h => by simp [tailDiffObj] at h
  | .cons k v t, .cons k2 w t2, h => by
      simp only [tailDiffObj, Bool.and_eq_true, beq_iff_eq] at h
      simp [JObj.keys, h.1.1, keys_eq_of_tailDiffObj t t2 h.2]

theorem hasKey_of_mem_keys : ∀ (o : JObj) (k : String), k ∈ o.keys →
    o.hasKey k = true
  | .nil, k, h => by simp [JObj.keys] at h
  | .cons k2 v t, k, h => by
      simp only [JObj.keys, List.mem_cons] at h
      unfold JObj.hasKey JObj.find?
      rcases h with h | h
      · simp [h.symm]
      · by_cases hk : k2 = k
        · simp [hk]
        · simpa [hk, JObj.hasKey] using hasKey_of_mem_keys t k h


mutual

theorem tailDiff_readCatsEmpty : ∀ (b a : Json) (p : String),
    jWF b = true → tailDiffOnly b a = true → ReadCatsEmpty (deepDiffAt b a p)
  | .null, a, p, hw, h => by
      cases a <;> simp [tailDiffOnly] at h <;> exact ⟨rfl, rfl, rfl, rfl⟩
  | .bool x, a, p, hw, h => by
      cases a <;> simp [tailDiffOnly] at h
      simp [deepDiffAt, h, DeepDiffResult.empty, ReadCatsEmpty]
  | .num x, a, p, hw, h => by
      cases a <;> simp [tailDiffOnly] at h
      simp [deepDiffAt, h, DeepDiffResult.empty, ReadCatsEmpty]
  | .str x, a, p, hw, h => by
      cases a <;> simp [tailDiffOnly] at h
      simp [deepDiffAt, h, DeepDiffResult.empty, ReadCatsEmpty]
  | .arr xs, a, p, hw, h => by
      cases a <;> simp [tailDiffOnly] at h
      case arr ys =>
        exact tailDiffList_readCatsEmpty xs ys p 0 (by simpa [jWF] using hw) h
  | .obj xs, a, p, hw, h => by
      cases a <;> simp [tailDiffOnly] at h
      case obj ys =>
        simp only [jWF, Bool.and_eq_true] at hw
        have hkeys : xs.keys = ys.keys := keys_eq_of_tailDiffObj xs ys h
        have hadded : (ys.keys.filter (fun k => !xs.hasKey k)) = [] := by
          apply List.filter_eq_nil_iff.mpr
          intro k hk
          simp [hasKey_of_mem_keys xs k (hkeys ▸ hk)]
        have hremoved : (xs.keys.filter (fun k => !ys.hasKey k)) = [] := by
          apply List.filter_eq_nil_iff.mpr
          intro k hk
          simp [hasKey_of_mem_keys ys k (hkeys ▸ hk : k ∈ ys.keys)]
        simp only [deepDiffAt]
        refine readCatsEmpty_union (readCatsEmpty_union ?_ ?_)
          (tailDiffObjAux xs ys ys p hw.1 hw.2 (fun _ _ => rfl) h)
        · exact ⟨by simp [hadded], rfl, rfl, rfl⟩
        · exact ⟨rfl, by simp [hremoved], rfl, rfl⟩

theorem tailDiffList_readCatsEmpty : ∀ (xs ys : JList) (p : String) (i : Nat),
    jlWF xs = true → tailDiffList xs ys = true → ReadCatsEmpty (deepDiffList xs ys p i)
  | .nil, .nil, p, i, _, _ => ⟨rfl, rfl, rfl, rfl⟩
  | .nil, .cons y ys, p, i, _, _ => ⟨rfl, rfl, rfl, rfl⟩
  | .cons x xs, .nil, p, i, _, _ => ⟨rfl, rfl, rfl, rfl⟩
  | .cons x xs, .cons y ys, p, i, hw, h => by
      simp only [tailDiffList, Bool.and_eq_true] at h
      simp only [jlWF, Bool.and_eq_true] at hw
      exact readCatsEmpty_union
        (tailDiff_readCatsEmpty x y (idxPath p i) hw.1 h.1)
        (tailDiffList_readCatsEmpty xs ys p (i + 1) hw.2 h.2)

theorem tailDiffObjAux : ∀ (xs ys ysFull : JObj) (p : String),
    joKeysOk xs = true → joWF xs = true →
    (∀ k, k ∈ xs.keys → ysFull.find? k = ys.find? k) →
    tailDiffObj xs ys = true → ReadCatsEmpty (deepDiffObj xs ysFull p)
  | .nil, ys, ysFull, p, _, _, _, _ => ⟨rfl, rfl, rfl, rfl⟩
  | .cons k v t, ys, ysFull, p, hko, hwo, hcompat, h => by
      cases ys with
      | nil => simp [tailDiffObj] at h
      | cons k2 w t2 =>
        simp only [tailDiffObj, Bool.and_eq_true, beq_iff_eq] at h
        obtain ⟨⟨hk, hvw⟩, ht⟩ := h
        simp only [joKeysOk, Bool.and_eq_true, Bool.not_eq_true'] at hko
        simp only [joWF, Bool.and_eq_true] at hwo
        have hfind : ysFull.find? k = some w := by
          rw [hcompat k (by simp [JObj.keys])]
          subst hk
          simp [JObj.find?]
        simp only [deepDiffObj, hfind]
        refine readCatsEmpty_union ?_ ?_
        · exact tailDiff_readCatsEmpty v w (dictPath p k) hwo.1 hvw
        · refine tailDiffObjAux t t2 ysFull p hko.2 hwo.2 ?_ ht
          intro k3 hk3
          rw [hcompat k3 (by simp [JObj.keys, hk3])]
          have hne : k2 ≠ k3 := by
            subst hk
            intro hEq
            have hmem := hasKey_of_mem_keys t k3 hk3
            rw [← hEq, hko.1] at hmem
            exact absurd hmem (by decide)
          simp [JObj.find?, hne]

end

/-- C3 amended: when the two values differ only by elements appended
to or truncated from the ends of arrays — so no surviving element
changes its position — `compute_diff` returns the empty list (the
divergence lands exclusively in the ignored iterable categories); the
first value is required to be well-formed (unique dict keys). -/
theorem C3_amended_trailing_only (before after : Json) (path : String)
    (hw : jWF before = true) (h : tailDiffOnly before after = true) :
    compute_diff before after path = [] := by
  unfold compute_diff
  by_cases hn : before = .null ∨ after = .null
  · simp [hn]
  · simp only [hn, if_false]
    obtain ⟨h1, h2, h3, h4⟩ := tailDiff_readCatsEmpty before after "root" hw h
    simp [DeepDiff, h1, h2, h3, h4]

/-- Witness for the amended C3 at the claim's own example: the value
`[1]` under key `k` against `[1, 2]` under the same key. -/
theorem C3_amended_trailing_only_witness :
    compute_diff (.obj (.cons "k" (.arr (.cons (.num 1) .nil)) .nil))
      (.obj (.cons "k" (.arr (.cons (.num 1) (.cons (.num 2) .nil))) .nil)) "" = [] :=
  C3_amended_trailing_only
    (.obj (.cons "k" (.arr (.cons (.num 1) .nil)) .nil))
    (.obj (.cons "k" (.arr (.cons (.num 1) (.cons (.num 2) .nil))) .nil)) ""
    (by decide) (by decide)

/-!
Claim C1: characterization of `first_corruption_hop` and of the
accumulated diffs.  `stageComparisons` lists, in pipeline-stage order,
each comparison the replay walk performs: the capture point of the
compared (current) stage together with the diff of the previous present
stage's response payload against the current one's.
-/

/-- Comparisons performed by the replay walk, in stage order: one entry
per present stage that has a previous present stage, carrying the
current capture point and the response-payload diff. -/
def stageComparisons (by_point : List (String × SnapshotData)) :
    List String → Option SnapshotData → List (String × List HopDiff)
  | [], _ => []
  | stage :: rest, prev =>
    match by_point.lookup stage with
    | none => stageComparisons by_point rest prev
    | some curr =>
      match prev with
      | none => stageComparisons by_point rest (some curr)
      | some p =>
        (curr.capture_point,
          compute_diff p.response_payload curr.response_payload
            (p.capture_point ++ " -> " ++ curr.capture_point)) ::
          stageComparisons by_point rest (some curr)

theorem stageComparisons_nil_by_point : ∀ (stages : List String)
    (prev : Option SnapshotData), stageComparisons [] stages prev = []
  | [], _ => rfl
  | stage :: rest, prev => by
      simp [stageComparisons, List.lookup, stageComparisons_nil_by_point rest prev]

theorem replayLoop_spec (by_point : List (String × SnapshotData)) :
    ∀ (stages : List String) (prev : Option SnapshotData)
      (acc : List HopDiff) (first : Option String),
    replayLoop by_point stages prev acc first =
      (acc ++ ((stageComparisons by_point stages prev).map Prod.snd).join,
       match first with
       | some f => some f
       | none => ((stageComparisons by_point stages prev).find?
           (fun c => !c.2.isEmpty)).map Prod.fst) := by
  intro stages
  induction stages with
  | nil =>
    intro prev acc first
    cases first <;> simp [replayLoop, stageComparisons]
  | cons stage rest ih =>
    intro prev acc first
    simp only [replayLoop, stageComparisons]
    cases hbp : by_point.lookup stage with
    | none => simpa using ih prev acc first
    | some curr =>
      cases prev with
      | none => simpa using ih (some curr) acc first
      | some p =>
        simp only []
        rw [ih (some curr) _ _]
        by_cases hd : (compute_diff p.response_payload curr.response_payload
            (p.capture_point ++ " -> " ++ curr.capture_point)).isEmpty
        · cases first <;>
            simp [hd, List.find?, List.append_assoc,
              List.isEmpty_iff.mp hd]
        · cases first <;>
            simp [hd, List.find?, List.append_assoc]

/-- C1: for every session and stage list, `first_corruption_hop` is the
capture point of the earliest stage, in pipeline-stage order, whose
response-payload diff against the previous present stage is non-empty
(`none` when no comparison yields a diff), while the diffs of all
comparisons — later ones included — are accumulated in order into the
result's `diffs`. -/
theorem C1_first_corruption_is_earliest_diff (capture_dir : CaptureDir)
    (session_name : String) (pipeline_stages : Option (List String)) :
    (replay_session capture_dir session_name pipeline_stages).first_corruption_hop =
      ((stageComparisons (groupByPoint (load_session capture_dir session_name))
          (effectiveStages pipeline_stages) none).find?
        (fun c => !c.2.isEmpty)).map Prod.fst ∧
    (replay_session capture_dir session_name pipeline_stages).diffs =
      ((stageComparisons (groupByPoint (load_session capture_dir session_name))
          (effectiveStages pipeline_stages) none).map Prod.snd).join := by
  unfold replay_session
  by_cases h : (load_session capture_dir session_name).isEmpty
  · have h0 : load_session capture_dir session_name = [] := List.isEmpty_iff.mp h
    rw [h0]
    have hg : groupByPoint [] = [] := rfl
    simp [h, hg, stageComparisons_nil_by_point]
  · simp only [h, if_false]
    rw [replayLoop_spec]
    simp

/-!
Claim C8: robustness of `load_session`.  The loaded list is exactly the
multiset of snapshots parsed from the readable, well-formed files (a
bad file is skipped without affecting any other file), returned sorted
by timestamp.
-/

theorem insertByLt_perm (lt : α → α → Bool) (x : α) :
    ∀ (l : List α), (insertByLt lt x l).Perm (x :: l)
  | [] => List.Perm.refl _
  | y :: ys => by
      simp only [insertByLt]
      by_cases h : lt y x
      · simp only [h, if_true]
        exact ((insertByLt_perm lt x ys).cons y).trans (List.Perm.swap x y ys)
      · simp [h]

theorem sortByLt_perm (lt : α → α → Bool) : ∀ (l : List α), (sortByLt lt l).Perm l
  | [] => List.Perm.refl _
  | x :: xs =>
      (insertByLt_perm lt x (sortByLt lt xs)).trans ((sortByLt_perm lt xs).cons x)

theorem insertByLt_sorted (key : α → Int) (x : α) :
    ∀ (l : List α), l.Pairwise (fun a b => key a ≤ key b) →
    (insertByLt (fun a b => decide (key a < key b)) x l).Pairwise
      (fun a b => key a ≤ key b)
  | [], _ => by simp [insertByLt]
  | y :: ys, hp => by
      rw [List.pairwise_cons] at hp
      simp only [insertByLt, decide_eq_true_eq]
      by_cases h : key y < key x
      · simp only [h, if_true]
        rw [List.pairwise_cons]
        refine ⟨?_, insertByLt_sorted key x ys hp.2⟩
        intro z hz
        have hz2 : z ∈ x :: ys := (insertByLt_perm _ x ys).mem_iff.mp hz
        rcases List.mem_cons.mp hz2 with hz3 | hz3
        · exact hz3 ▸ le_of_lt h
        · exact hp.1 z hz3
      · simp only [h, if_false]
        rw [List.pairwise_cons]
        refine ⟨?_, List.pairwise_cons.mpr hp⟩
        intro z hz
        rcases List.mem_cons.mp hz with hz | hz
        · exact hz ▸ le_of_not_lt h
        · exact le_trans (le_of_not_lt h) (hp.1 z hz)

theorem sortByLt_sorted (key : α → Int) : ∀ (l : List α),
    (sortByLt (fun a b => decide (key a < key b)) l).Pairwise
      (fun a b => key a ≤ key b)
  | [] => List.Pairwise.nil
  | x :: xs => insertByLt_sorted key x _ (sortByLt_sorted key xs)

/-- C8: for every capture directory and session name, `load_session`
returns a permutation of the snapshots parsed from exactly the
readable well-formed files of the session directory — skipped files
never fail the load or drop other files — and the returned list is
sorted by timestamp. -/
theorem C8_load_session_skips_and_sorts (capture_dir : CaptureDir)
    (session_name : String) :
    (load_session capture_dir session_name).Perm
      (((capture_dir.lookup session_name).getD []).filterMap
        (fun f => f.content.map snapshotOfJson)) ∧
    (load_session capture_dir session_name).Pairwise
      (fun s t => s.timestamp ≤ t.timestamp) := by
  unfold load_session
  cases hl : capture_dir.lookup session_name with
  | none => simp
  | some files =>
    constructor
    · simp only [Option.getD_some]
      refine (sortByLt_perm _ _).trans ?_
      exact (sortByLt_perm _ files).filterMap _
    · exact sortByLt_sorted (fun s : SnapshotData => s.timestamp) _

/-!
Claim C7: the symmetry law.  The claim transforms `added` into
`removed` (and back) and swaps old/new on `changed` diffs — but says
nothing about `type_changed` diffs, whose old/new values also swap
when the arguments are exchanged; the claim as stated therefore fails
on any pair producing a type change.  The amended law applies the
old/new swap to `changed` and `type_changed` alike.
-/

/-- Transformation of a `HopDiff` exactly as the claim words it:
`added` becomes `removed` and vice versa, `changed` swaps old/new, and
any other diff (in particular `type_changed`) is left untouched. -/
def claimSwap (d : HopDiff) : HopDiff :=
  if d.diff_type = "added" then { d with diff_type := "removed" }
  else if d.diff_type = "removed" then { d with diff_type := "added" }
  else if d.diff_type = "changed" then
    { d with old_value := d.new_value, new_value := d.old_value }
  else d

/-- Tuple the claim compares: `(path, diff_type, old_value, new_value)`. -/
def hopTuple (d : HopDiff) : String × String × Option Json × Option Json :=
  (d.path, d.diff_type, d.old_value, d.new_value)

/-- C7 counterexample: for `{"k": 1}` against `{"k": "s"}` the only
diff is a `type_changed`; re-diffing in the swapped order yields the
tuple with old/new exchanged, which the claim's transformation (which
does not touch `type_changed`) fails to produce, so the two tuple sets
differ. -/
theorem C7_counterexample_type_change_not_swapped :
    (compute_diff (.obj (.cons "k" (.str "s") .nil))
        (.obj (.cons "k" (.num 1) .nil)) "").map hopTuple =
      [("root['k']", "type_changed", some (.str "s"), some (.num 1))] ∧
    ((compute_diff (.obj (.cons "k" (.num 1) .nil))
        (.obj (.cons "k" (.str "s") .nil)) "").map claimSwap).map hopTuple =
      [("root['k']", "type_changed", some (.num 1), some (.str "s"))] ∧
    (compute_diff (.obj (.cons "k" (.str "s") .nil))
        (.obj (.cons "k" (.num 1) .nil)) "").map hopTuple ≠
      ((compute_diff (.obj (.cons "k" (.num 1) .nil))
        (.obj (.cons "k" (.str "s") .nil)) "").map claimSwap).map hopTuple := by
  refine ⟨by decide, by decide, by decide⟩

/-- Amended transformation: `added` and `removed` exchange, and both
`changed` and `type_changed` swap their old/new values. -/
def fullSwap (d : HopDiff) : HopDiff :=
  if d.diff_type = "added" then { d with diff_type := "removed" }
  else if d.diff_type = "removed" then { d with diff_type := "added" }
  else { d with old_value := d.new_value, new_value := d.old_value }

theorem fullSwap_fullSwap (d : HopDiff) : fullSwap (fullSwap d) = d := by
  obtain ⟨hn, pa, ov, nv, dt⟩ := d
  unfold fullSwap
  by_cases h1 : dt = "added"
  · simp [h1]
  · by_cases h2 : dt = "removed"
    · simp [h1, h2]
    · simp [h1, h2]

/-- Componentwise symmetry of two DeepDiff results: memberships of the
first's categories correspond to memberships of the second's with
added/removed (and the iterable pair) exchanged and with the old/new
values of `values_changed` and `type_changes` swapped. -/
def SymCats (d e : DeepDiffResult) : Prop :=
  (∀ x, x ∈ d.dictionary_item_added ↔ x ∈ e.dictionary_item_removed) ∧
  (∀ x, x ∈ d.dictionary_item_removed ↔ x ∈ e.dictionary_item_added) ∧
  (∀ s o n, (s, o, n) ∈ d.values_changed ↔ (s, n, o) ∈ e.values_changed) ∧
  (∀ s o n, (s, o, n) ∈ d.type_changes ↔ (s, n, o) ∈ e.type_changes) ∧
  (∀ x, x ∈ d.iterable_item_added ↔ x ∈ e.iterable_item_removed) ∧
  (∀ x, x ∈ d.iterable_item_removed ↔ x ∈ e.iterable_item_added)

theorem symCats_empty : SymCats .empty .empty := by
  simp [SymCats, DeepDiffResult.empty]

theorem symCats_union {d₁ e₁ d₂ e₂ : DeepDiffResult}
    (h₁ : SymCats d₁ e₁) (h₂ : SymCats d₂ e₂) :
    SymCats (d₁.union d₂) (e₁.union e₂) := by
  obtain ⟨a1, b1, c1, t1, i1, j1⟩ := h₁
  obtain ⟨a2, b2, c2, t2, i2, j2⟩ := h₂
  refine ⟨?_, ?_, ?_, ?_, ?_, ?_⟩ <;>
    intros <;>
    simp only [DeepDiffResult.union, List.mem_append] <;>
    constructor <;>
    rintro (h | h)
  · exact Or.inl ((a1 _).mp h)
  · exact Or.inr ((a2 _).mp h)
  · exact Or.inl ((a1 _).mpr h)
  · exact Or.inr ((a2 _).mpr h)
  · exact Or.inl ((b1 _).mp h)
  · exact Or.inr ((b2 _).mp h)
  · exact Or.inl ((b1 _).mpr h)
  · exact Or.inr ((b2 _).mpr h)
  · exact Or.inl ((c1 _ _ _).mp h)
  · exact Or.inr ((c2 _ _ _).mp h)
  · exact Or.inl ((c1 _ _ _).mpr h)
  · exact Or.inr ((c2 _ _ _).mpr h)
  · exact Or.inl ((t1 _ _ _).mp h)
  · exact Or.inr ((t2 _ _ _).mp h)
  · exact Or.inl ((t1 _ _ _).mpr h)
  · exact Or.inr ((t2 _ _ _).mpr h)
  · exact Or.inl ((i1 _).mp h)
  · exact Or.inr ((i2 _).mp h)
  · exact Or.inl ((i1 _).mpr h)
  · exact Or.inr ((i2 _).mpr h)
  · exact Or.inl ((j1 _).mp h)
  · exact Or.inr ((j2 _).mp h)
  · exact Or.inl ((j1 _).mpr h)
  · exact Or.inr ((j2 _).mpr h)

theorem symCats_values_pair (p : String) (x y : Json) :
    SymCats { DeepDiffResult.empty with values_changed := [(p, x, y)] }
      { DeepDiffResult.empty with values_changed := [(p, y, x)] } := by
  refine ⟨by simp [DeepDiffResult.empty], by simp [DeepDiffResult.empty], ?_,
    by simp [DeepDiffResult.empty], by simp [DeepDiffResult.empty],
    by simp [DeepDiffResult.empty]⟩
  intro s o n
  constructor
  · intro h
    simp only [List.mem_singleton, Prod.mk.injEq] at h
    simp [h.1, h.2.1, h.2.2]
  · intro h
    simp only [List.mem_singleton, Prod.mk.injEq] at h
    simp [h.1, h.2.1, h.2.2]

theorem symCats_types_pair (p : String) (x y : Json) :
    SymCats { DeepDiffResult.empty with type_changes := [(p, x, y)] }
      { DeepDiffResult.empty with type_changes := [(p, y, x)] } := by
  refine ⟨by simp [DeepDiffResult.empty], by simp [DeepDiffResult.empty],
    by simp [DeepDiffResult.empty], ?_, by simp [DeepDiffResult.empty],
    by simp [DeepDiffResult.empty]⟩
  intro s o n
  constructor
  · intro h
    simp only [List.mem_singleton, Prod.mk.injEq] at h
    simp [h.1, h.2.1, h.2.2]
  · intro h
    simp only [List.mem_singleton, Prod.mk.injEq] at h
    simp [h.1, h.2.1, h.2.2]

theorem symCats_dict_heads (La Lr : List String) :
    SymCats (({ DeepDiffResult.empty with dictionary_item_added := La }).union
        { DeepDiffResult.empty with dictionary_item_removed := Lr })
      (({ DeepDiffResult.empty with dictionary_item_added := Lr }).union
        { DeepDiffResult.empty with dictionary_item_removed := La }) := by
  refine ⟨?_, ?_, ?_, ?_, ?_, ?_⟩ <;> intros <;>
    simp [DeepDiffResult.empty, DeepDiffResult.union]

/-- Values of different runtime kind are reported as a single type
change in each direction. -/
theorem deepDiffAt_of_ne_kind : ∀ (b a : Json) (p : String), sameKind b a = false →
    deepDiffAt b a p = { DeepDiffResult.empty with type_changes := [(p, b, a)] } := by
  intro b a p h
  cases b <;> cases a <;> first
    | rfl
    | simp [sameKind] at h

theorem sameKind_comm : ∀ (b a : Json), sameKind b a = sameKind a b := by
  intro b a
  cases b <;> cases a <;> rfl

theorem symCats_of_ne_kind (b a : Json) (p : String) (h : sameKind b a = false) :
    SymCats (deepDiffAt b a p) (deepDiffAt a b p) := by
  rw [deepDiffAt_of_ne_kind b a p h,
    deepDiffAt_of_ne_kind a b p ((sameKind_comm a b).trans h)]
  exact symCats_types_pair p b a

theorem mem_keys_of_find? : ∀ (o : JObj) (k : String) (v : Json),
    o.find? k = some v → k ∈ o.keys
  | .nil, k, v, h => by simp [JObj.find?] at h
  | .cons k1 v1 t, k, v, h => by
      by_cases hEq : k1 = k
      · simp [JObj.keys, hEq]
      · simp only [JObj.find?, hEq, if_false] at h
        simp [JObj.keys, mem_keys_of_find? t k v h]

theorem wf_of_find? : ∀ (o : JObj) (k : String) (v : Json),
    joWF o = true → o.find? k = some v → jWF v = true
  | .nil, k, v, _, h => by simp [JObj.find?] at h
  | .cons k1 v1 t, k, v, hw, h => by
      simp only [joWF, Bool.and_eq_true] at hw
      by_cases hEq : k1 = k
      · have : v1 = v := by simpa [JObj.find?, hEq] using h
        exact this ▸ hw.1
      · exact wf_of_find? t k v hw.2 (by simpa [JObj.find?, hEq] using h)

/-- Membership characterization of any component of the shared-key
comparison: an element appears iff it comes from the pointwise diff of
the values stored under some key both objects hold. -/
theorem mem_sel_deepDiffObj {γ : Type} (sel : DeepDiffResult → List γ)
    (hu : ∀ d e, sel (d.union e) = sel d ++ sel e)
    (he : sel .empty = []) :
    ∀ (xs ys : JObj) (p : String), joKeysOk xs = true → ∀ (x : γ),
    (x ∈ sel (deepDiffObj xs ys p) ↔
      ∃ k v w, xs.find? k = some v ∧ ys.find? k = some w ∧
        x ∈ sel (deepDiffAt v w (dictPath p k)))
  | .nil, ys, p, hk, x => by
      simp only [deepDiffObj, he, List.not_mem_nil, false_iff]
      rintro ⟨k, v, w, hfx, _, _⟩
      simp [JObj.find?] at hfx
  | .cons k1 v1 t, ys, p, hk, x => by
      simp only [joKeysOk, Bool.and_eq_true, Bool.not_eq_true'] at hk
      simp only [deepDiffObj, hu, List.mem_append]
      rw [mem_sel_deepDiffObj sel hu he t ys p hk.2 x]
      constructor
      · rintro (hx | ⟨k, v, w, hfx, hfy, hx⟩)
        · cases hys : ys.find? k1 with
          | none => rw [hys] at hx; simp [he] at hx
          | some w =>
            rw [hys] at hx
            exact ⟨k1, v1, w, by simp [JObj.find?], hys, hx⟩
        · have hne : k1 ≠ k := by
            intro hEq
            have hmem := hasKey_of_mem_keys t k (mem_keys_of_find? t k v hfx)
            rw [← hEq, hk.1] at hmem
            exact absurd hmem (by decide)
          exact ⟨k, v, w, by simpa [JObj.find?, hne] using hfx, hfy, hx⟩
      · rintro ⟨k, v, w, hfx, hfy, hx⟩
        by_cases hEq : k1 = k
        · subst hEq
          have hv1 : v1 = v := by simpa [JObj.find?] using hfx
          subst hv1
          left
          rw [hfy]
          exact hx
        · right
          exact ⟨k, v, w, by simpa [JObj.find?, hEq] using hfx, hfy, hx⟩

/-- Symmetry of the shared-key comparison, given pointwise symmetry of
the diffs of the values stored under each shared key. -/
theorem symObjCats (xs ys : JObj) (p : String)
    (hkx : joKeysOk xs = true) (hky : joKeysOk ys = true)
    (hpt : ∀ k v w, xs.find? k = some v → ys.find? k = some w →
      SymCats (deepDiffAt v w (dictPath p k)) (deepDiffAt w v (dictPath p k))) :
    SymCats (deepDiffObj xs ys p) (deepDiffObj ys xs p) := by
  refine ⟨?_, ?_, ?_, ?_, ?_, ?_⟩
  · intro x
    rw [mem_sel_deepDiffObj (fun d => d.dictionary_item_added)
        (fun _ _ => rfl) rfl xs ys p hkx x,
      mem_sel_deepDiffObj (fun d => d.dictionary_item_removed)
        (fun _ _ => rfl) rfl ys xs p hky x]
    constructor
    · rintro ⟨k, v, w, hfx, hfy, hx⟩
      exact ⟨k, w, v, hfy, hfx, ((hpt k v w hfx hfy).1 x).mp hx⟩
    · rintro ⟨k, w, v, hfy, hfx, hx⟩
      exact ⟨k, v, w, hfx, hfy, ((hpt k v w hfx hfy).1 x).mpr hx⟩
  · intro x
    rw [mem_sel_deepDiffObj (fun d => d.dictionary_item_removed)
        (fun _ _ => rfl) rfl xs ys p hkx x,
      mem_sel_deepDiffObj (fun d => d.dictionary_item_added)
        (fun _ _ => rfl) rfl ys xs p hky x]
    constructor
    · rintro ⟨k, v, w, hfx, hfy, hx⟩
      exact ⟨k, w, v, hfy, hfx, ((hpt k v w hfx hfy).2.1 x).mp hx⟩
    · rintro ⟨k, w, v, hfy, hfx, hx⟩
      exact ⟨k, v, w, hfx, hfy, ((hpt k v w hfx hfy).2.1 x).mpr hx⟩
  · intro s o n
    rw [mem_sel_deepDiffObj (fun d => d.values_changed)
        (fun _ _ => rfl) rfl xs ys p hkx (s, o, n),
      mem_sel_deepDiffObj (fun d => d.values_changed)
        (fun _ _ => rfl) rfl ys xs p hky (s, n, o)]
    constructor
    · rintro ⟨k, v, w, hfx, hfy, hx⟩
      exact ⟨k, w, v, hfy, hfx, ((hpt k v w hfx hfy).2.2.1 s o n).mp hx⟩
    · rintro ⟨k, w, v, hfy, hfx, hx⟩
      exact ⟨k, v, w, hfx, hfy, ((hpt k v w hfx hfy).2.2.1 s o n).mpr hx⟩
  · intro s o n
    rw [mem_sel_deepDiffObj (fun d => d.type_changes)
        (fun _ _ => rfl) rfl xs ys p hkx (s, o, n),
      mem_sel_deepDiffObj (fun d => d.type_changes)
        (fun _ _ => rfl) rfl ys xs p hky (s, n, o)]
    constructor
    · rintro ⟨k, v, w, hfx, hfy, hx⟩
      exact ⟨k, w, v, hfy, hfx, ((hpt k v w hfx hfy).2.2.2.1 s o n).mp hx⟩
    · rintro ⟨k, w, v, hfy, hfx, hx⟩
      exact ⟨k, v, w, hfx, hfy, ((hpt k v w hfx hfy).2.2.2.1 s o n).mpr hx⟩
  · intro x
    rw [mem_sel_deepDiffObj (fun d => d.iterable_item_added)
        (fun _ _ => rfl) rfl xs ys p hkx x,
      mem_sel_deepDiffObj (fun d => d.iterable_item_removed)
        (fun _ _ => rfl) rfl ys xs p hky x]
    constructor
    · rintro ⟨k, v, w, hfx, hfy, hx⟩
      exact ⟨k, w, v, hfy, hfx, ((hpt k v w hfx hfy).2.2.2.2.1 x).mp hx⟩
    · rintro ⟨k, w, v, hfy, hfx, hx⟩
      exact ⟨k, v, w, hfx, hfy, ((hpt k v w hfx hfy).2.2.2.2.1 x).mpr hx⟩
  · intro x
    rw [mem_sel_deepDiffObj (fun d => d.iterable_item_removed)
        (fun _ _ => rfl) rfl xs ys p hkx x,
      mem_sel_deepDiffObj (fun d => d.iterable_item_added)
        (fun _ _ => rfl) rfl ys xs p hky x]
    constructor
    · rintro ⟨k, v, w, hfx, hfy, hx⟩
      exact ⟨k, w, v, hfy, hfx, ((hpt k v w hfx hfy).2.2.2.2.2 x).mp hx⟩
    · rintro ⟨k, w, v, hfy, hfx, hx⟩
      exact ⟨k, v, w, hfx, hfy, ((hpt k v w hfx hfy).2.2.2.2.2 x).mpr hx⟩

mutual

/-- Values built of dicts and scalars only.  On this fragment the
DeepDiff model is exact in every version of the library: dict
comparison is key-based, and the ordered-iterable alignment (positional
here; difflib-based and direction-asymmetric for all-scalar sequences
in modern versions of the library) never runs. -/
def arrayFree : Json → Bool
  | .null | .bool _ | .num _ | .str _ => true
  | .arr _ => false
  | .obj kvs => joArrayFree kvs

def joArrayFree : JObj → Bool
  | .nil => true
  | .cons _ v t => arrayFree v && joArrayFree t

end

theorem arrayFree_of_find? : ∀ (o : JObj) (k : String) (v : Json),
    joArrayFree o = true → o.find? k = some v → arrayFree v = true
  | .nil, k, v, _, h => by simp [JObj.find?] at h
  | .cons k1 v1 t, k, v, hf, h => by
      simp only [joArrayFree, Bool.and_eq_true] at hf
      by_cases hEq : k1 = k
      · have hv : v1 = v := by simpa [JObj.find?, hEq] using h
        exact hv ▸ hf.1
      · exact arrayFree_of_find? t k v hf.2 (by simpa [JObj.find?, hEq] using h)

mutual

theorem symAtAF : ∀ (b a : Json) (p : String), jWF b = true → jWF a = true →
    arrayFree b = true → arrayFree a = true →
    SymCats (deepDiffAt b a p) (deepDiffAt a b p)
  | .arr xs, a, p, _, _, hfb, _ => by simp [arrayFree] at hfb
  | .null, .arr ys, p, _, _, _, hfa => by simp [arrayFree] at hfa
  | .bool _, .arr ys, p, _, _, _, hfa => by simp [arrayFree] at hfa
  | .num _, .arr ys, p, _, _, _, hfa => by simp [arrayFree] at hfa
  | .str _, .arr ys, p, _, _, _, hfa => by simp [arrayFree] at hfa
  | .obj _, .arr ys, p, _, _, _, hfa => by simp [arrayFree] at hfa
  | .null, .null, p, _, _, _, _ => symCats_empty
  | .bool x, .bool y, p, _, _, _, _ => by
      by_cases h : x = y
      · subst h
        simp only [deepDiffAt, if_pos rfl]
        exact symCats_empty
      · simp only [deepDiffAt, if_neg h, if_neg (Ne.symm h)]
        exact symCats_values_pair p (.bool x) (.bool y)
  | .num x, .num y, p, _, _, _, _ => by
      by_cases h : x = y
      · subst h
        simp only [deepDiffAt, if_pos rfl]
        exact symCats_empty
      · simp only [deepDiffAt, if_neg h, if_neg (Ne.symm h)]
        exact symCats_values_pair p (.num x) (.num y)
  | .str x, .str y, p, _, _, _, _ => by
      by_cases h : x = y
      · subst h
        simp only [deepDiffAt, if_pos rfl]
        exact symCats_empty
      · simp only [deepDiffAt, if_neg h, if_neg (Ne.symm h)]
        exact symCats_values_pair p (.str x) (.str y)
  | .obj xs, .obj ys, p, hb, ha, hfb, hfa => by
      simp only [jWF, Bool.and_eq_true] at hb ha
      simp only [arrayFree] at hfb hfa
      simp only [deepDiffAt]
      exact symCats_union (symCats_dict_heads _ _)
        (symObjCats xs ys p hb.1 ha.1
          (fun k v w hv hw => symObjPtAF xs ys p hb.2 ha.2 hfb hfa k v w hv hw))
  | .null, .bool _, p, _, _, _, _ => symCats_of_ne_kind _ _ p rfl
  | .null, .num _, p, _, _, _, _ => symCats_of_ne_kind _ _ p rfl
  | .null, .str _, p, _, _, _, _ => symCats_of_ne_kind _ _ p rfl
  | .null, .obj _, p, _, _, _, _ => symCats_of_ne_kind _ _ p rfl
  | .bool _, .null, p, _, _, _, _ => symCats_of_ne_kind _ _ p rfl
  | .bool _, .num _, p, _, _, _, _ => symCats_of_ne_kind _ _ p rfl
  | .bool _, .str _, p, _, _, _, _ => symCats_of_ne_kind _ _ p rfl
  | .bool _, .obj _, p, _, _, _, _ => symCats_of_ne_kind _ _ p rfl
  | .num _, .null, p, _, _, _, _ => symCats_of_ne_kind _ _ p rfl
  | .num _, .bool _, p, _, _, _, _ => symCats_of_ne_kind _ _ p rfl
  | .num _, .str _, p, _, _, _, _ => symCats_of_ne_kind _ _ p rfl
  | .num _, .obj _, p, _, _, _, _ => symCats_of_ne_kind _ _ p rfl
  | .str _, .null, p, _, _, _, _ => symCats_of_ne_kind _ _ p rfl
  | .str _, .bool _, p, _, _, _, _ => symCats_of_ne_kind _ _ p rfl
  | .str _, .num _, p, _, _, _, _ => symCats_of_ne_kind _ _ p rfl
  | .str _, .obj _, p, _, _, _, _ => symCats_of_ne_kind _ _ p rfl
  | .obj _, .null, p, _, _, _, _ => symCats_of_ne_kind _ _ p rfl
  | .obj _, .bool _, p, _, _, _, _ => symCats_of_ne_kind _ _ p rfl
  | .obj _, .num _, p, _, _, _, _ => symCats_of_ne_kind _ _ p rfl
  | .obj _, .str _, p, _, _, _, _ => symCats_of_ne_kind _ _ p rfl

theorem symObjPtAF : ∀ (xs ys : JObj) (p : String), joWF xs = true → joWF ys = true →
    joArrayFree xs = true → joArrayFree ys = true →
    ∀ (k : String) (v w : Json), xs.find? k = some v → ys.find? k = some w →
    SymCats (deepDiffAt v w (dictPath p k)) (deepDiffAt w v (dictPath p k))
  | .nil, ys, p, _, _, _, _, k, v, w, hv, _ => by simp [JObj.find?] at hv
  | .cons k1 v1 t, ys, p, hwx, hwy, hfx, hfy, k, v, w, hv, hw => by
      simp only [joWF, Bool.and_eq_true] at hwx
      simp only [joArrayFree, Bool.and_eq_true] at hfx
      by_cases hEq : k1 = k
      · have hv1 : v1 = v := by
          subst hEq
          simpa [JObj.find?] using hv
        subst hv1
        exact symAtAF v1 w (dictPath p k) hwx.1 (wf_of_find? ys k w hwy hw)
          hfx.1 (arrayFree_of_find? ys k w hfy hw)
      · exact symObjPtAF t ys p hwx.2 hwy hfx.2 hfy k v w
          (by simpa [JObj.find?, hEq] using hv) hw

end

theorem compute_diff_mem_swap (before after : Json) (p q : String)
    (hb : jWF before = true) (ha : jWF after = true)
    (hfb : arrayFree before = true) (hfa : arrayFree after = true) (d : HopDiff)
    (hd : d ∈ compute_diff before after p) :
    fullSwap d ∈ compute_diff after before q := by
  by_cases hn : before = .null ∨ after = .null
  · unfold compute_diff at hd
    simp [hn] at hd
  · have hn2 : ¬(after = .null ∨ before = .null) := fun h => hn (Or.symm h)
    obtain ⟨Sadd, Srem, Sval, Styp, _, _⟩ := symAtAF before after "root" hb ha hfb hfa
    unfold compute_diff at hd ⊢
    rw [if_neg hn] at hd
    rw [if_neg hn2]
    simp only [List.mem_append, List.mem_map, DeepDiff] at hd ⊢
    rcases hd with (((⟨item, hitem, rfl⟩ | ⟨item, hitem, rfl⟩) | ⟨⟨s, o, n⟩, hpv, rfl⟩) |
      ⟨⟨s, o, n⟩, hpv, rfl⟩)
    · refine Or.inl (Or.inl (Or.inr ⟨item, (Sadd item).mp hitem, ?_⟩))
      simp [fullSwap]
    · refine Or.inl (Or.inl (Or.inl ⟨item, (Srem item).mp hitem, ?_⟩))
      simp [fullSwap]
    · refine Or.inl (Or.inr ⟨(s, n, o), (Sval s o n).mp hpv, ?_⟩)
      simp [fullSwap]
    · refine Or.inr ⟨(s, n, o), (Styp s o n).mp hpv, ?_⟩
      simp [fullSwap]

/-- C7 amended: for well-formed values built of dicts and scalars only
(no arrays anywhere — the fragment on which the DeepDiff model is
exact in every version of the library, its iterable alignment never
running), re-diffing in the swapped order produces exactly the diffs
of the original order with `added` and `removed` exchanged and with
the old/new values of both `changed` and `type_changed` diffs swapped,
at the same path.  For values containing arrays the law can
additionally fail in the library itself, whose default alignment of
all-scalar sequences is direction-asymmetric. -/
theorem C7_amended_symmetry (before after : Json) (path : String)
    (hb : jWF before = true) (ha : jWF after = true)
    (hfb : arrayFree before = true) (hfa : arrayFree after = true) (d : HopDiff) :
    d ∈ compute_diff before after path ↔
      fullSwap d ∈ compute_diff after before path := by
  constructor
  · exact compute_diff_mem_swap before after path path hb ha hfb hfa d
  · intro h
    have h2 := compute_diff_mem_swap after before path path ha hb hfa hfb (fullSwap d) h
    rwa [fullSwap_fullSwap] at h2

/-- Removed-kind diff used to instantiate the amended C7. -/
def c7WitnessDiff : HopDiff :=
  { hop_name := "root['a']", path := "root['a']", old_value := none,
    new_value := none, diff_type := "removed" }

/-- Witness for the amended C7 at an array-free pair producing a
`removed` diff. -/
theorem C7_amended_symmetry_witness :
    (c7WitnessDiff ∈ compute_diff (.obj (.cons "a" (.num 1) .nil)) (.obj .nil) "" ↔
      fullSwap c7WitnessDiff ∈
        compute_diff (.obj .nil) (.obj (.cons "a" (.num 1) .nil)) "") :=
  C7_amended_symmetry (.obj (.cons "a" (.num 1) .nil)) (.obj .nil) ""
    (by decide) (by decide) (by decide) (by decide) c7WitnessDiff

/-!
Embedding of the weekly trend aggregator
(`replay/analytics/trends.py`).  Analytics consume the outcome of
`load_metadata` on each `metadata.json` discovered under the capture
root; a record is modelled as `none` when loading fails (malformed
JSON, unreadable file) and as the parsed object otherwise.  Timestamps
are modelled as integer Unix seconds against a UTC local clock, and
`datetime.fromtimestamp`'s range errors are modelled by rejecting
dates outside years 1–9999.
-/

/-- Conversion of a day count relative to 1970-01-01 into a civil
`(year, month, day)` date (proleptic Gregorian calendar). -/
def civilFromDays (z0 : Int) : Int × Int × Int :=
  let z := z0 + 719468
  let era := z.ediv 146097
  let doe := z - era * 146097
  let yoe := (doe - doe.ediv 1460 + doe.ediv 36524 - doe.ediv 146096).ediv 365
  let y := yoe + era * 400
  let doy := doe - (365 * yoe + yoe.ediv 4 - yoe.ediv 100)
  let mp := (5 * doy + 2).ediv 153
  let d := doy - (153 * mp + 2).ediv 5 + 1
  let m := if mp < 10 then mp + 3 else mp - 9
  (if m ≤ 2 then y + 1 else y, m, d)

/-- Two-digit zero-padded rendering (months, days of `%m`/`%d`). -/
def pad2 (n : Int) : String := if n < 10 then "0" ++ toString n else toString n

/-- Four-digit zero-padded rendering (years of `%Y`). -/
def pad4 (n : Int) : String :=
  if n < 10 then "000" ++ toString n
  else if n < 100 then "00" ++ toString n
  else if n < 1000 then "0" ++ toString n
  else toString n

/-- Embedding of `get_week_key(timestamp)`: the `YYYY-MM-DD` date of
the Monday of the week containing the timestamp, or `none` when the
timestamp falls outside the representable datetime range (the code
logs and skips such records). -/
def get_week_key (timestamp : Int) : Option String :=
  let days := timestamp.ediv 86400
  if (civilFromDays days).1 < 1 ∨ 9999 < (civilFromDays days).1 then none
  else
    let monday := days - (days + 3).emod 7
    let c := civilFromDays monday
    some (pad4 c.1 ++ "-" ++ pad2 c.2.1 ++ "-" ++ pad2 c.2.2)

example : get_week_key 0 = some "1969-12-29" := by decide
example : get_week_key 1700000000 = some "2023-11-13" := by decide
example : get_week_key 1641600000 = some "2022-01-03" := by decide
example : get_week_key 946684800 = some "1999-12-27" := by decide

/-- Object held in a JSON value, the empty object otherwise (model of
the `.get(..., {})` call chains of the aggregator). -/
def jObjOf : Json → JObj
  | .obj kvs => kvs
  | _ => .nil

/-- Embedding of the `WeeklyTrend` dataclass (counts only; the derived
percentage property is not needed by the claims). -/
structure WeeklyTrend where
  week_start : String
  total_runs : Nat
  corrupt_runs : Nat
  deriving DecidableEq, Repr

/-- Model of the corruption test of one record: some hop of
`diff_summary` has a positive `diff_count`. -/
def has_corruption (metadata : JObj) : Bool :=
  let ds := jObjOf (oGet metadata "diff_summary" (.obj .nil))
  ds.keys.any fun hop =>
    0 < jNum (oGet (jObjOf (oGet ds hop (.obj .nil))) "diff_count" (.num 0))

/-- One step of the `week_data` accumulation: the per-week counters,
kept as an insertion-ordered association list exactly like the Python
dict, with the current record's week bumped. -/
def bump : List (String × Nat × Nat) → String → Bool → List (String × Nat × Nat)
  | [], k, c => [(k, 1, if c then 1 else 0)]
  | (k2, t, cr) :: rest, k, c =>
      if k2 = k then (k2, t + 1, if c then cr + 1 else cr) :: rest
      else (k2, t, cr) :: bump rest k c

/-- Processing of one metadata record: failed loads, zero timestamps
and out-of-range week keys are skipped, otherwise the record's week is
counted (and counted corrupt when some hop reports a diff). -/
def addRecord (acc : List (String × Nat × Nat)) (rec : Option JObj) :
    List (String × Nat × Nat) :=
  match rec with
  | none => acc
  | some metadata =>
    let timestamp := jNum (oGet metadata "timestamp" (.num 0))
    if timestamp = 0 then acc
    else
      match get_week_key timestamp with
      | none => acc
      | some week_key => bump acc week_key (has_corruption metadata)

/-- Embedding of `trend_report(capture_dir, weeks)` from the point
after the `metadata.json` files are discovered: each list element is
the `load_metadata` outcome of one discovered file, in scan order.
The accumulated weeks are restricted to the `weeks` most recent by
descending week key and the surviving rows are returned sorted by
`week_start`. -/
def trend_report (records : List (Option JObj)) (weeks : Nat) : List WeeklyTrend :=
  let week_data := records.foldl addRecord []
  let filtered :=
    if week_data.isEmpty then week_data
    else
      let sorted_weeks := sortByLt (fun a b => strLtB b a) (week_data.map Prod.fst)
      let recent_weeks := sorted_weeks.take weeks
      recent_weeks.filterMap fun w => (week_data.lookup w).map fun c => (w, c)
  let results := filtered.map fun wc =>
    { week_start := wc.1, total_runs := wc.2.1, corrupt_runs := wc.2.2 : WeeklyTrend }
  sortByLt (fun a b => strLtB a.week_start b.week_start) results

/-- Model of the Python default `weeks=8`. -/
def trend_report_default (records : List (Option JObj)) : List WeeklyTrend :=
  trend_report records 8

/-!
Claim-side reference computation for C9, built from the claim's words:
bucket every valid record by the ISO Monday of its week, count totals
and corrupt runs per week with plain list counting, keep the most
recent `weeks` week keys by descending order, and present the result
ascending.
-/

/-- Week key and corruption flag of one record, `none` for records the
aggregator skips. -/
def validRecord (rec : Option JObj) : Option (String × Bool) :=
  match rec with
  | none => none
  | some metadata =>
    let timestamp := jNum (oGet metadata "timestamp" (.num 0))
    if timestamp = 0 then none
    else (get_week_key timestamp).map fun w => (w, has_corruption metadata)

/-- Week keys (with corruption flags) of all counted records. -/
def validWeekKeys (records : List (Option JObj)) : List (String × Bool) :=
  records.filterMap validRecord

/-- Deduplication keeping first occurrences, with an accumulator of
already seen elements. -/
def firstOccurAux (seen : List String) : List String → List String
  | [] => []
  | k :: rest =>
      if k ∈ seen then firstOccurAux seen rest
      else k :: firstOccurAux (k :: seen) rest

/-- Deduplication keeping first occurrences. -/
def firstOccur (l : List String) : List String := firstOccurAux [] l

/-- Row of the reference computation: the week with its two counts,
obtained by plain counting over the valid records. -/
def trendRow (ks : List (String × Bool)) (w : String) : WeeklyTrend :=
  { week_start := w,
    total_runs := ks.countP fun r => r.1 == w,
    corrupt_runs := ks.countP fun r => r.1 == w && r.2 }

/-- Reference computation the claim describes. -/
def trendSpec (records : List (Option JObj)) (weeks : Nat) : List WeeklyTrend :=
  let ks := validWeekKeys records
  let allWeeks := firstOccur (ks.map Prod.fst)
  let recent := (sortByLt (fun a b => strLtB b a) allWeeks).take weeks
  (sortByLt (fun a b => strLtB a b) recent).map (trendRow ks)

example :
    trend_report
      [some (.cons "timestamp" (.num 1700000000)
         (.cons "diff_summary" (.obj (.cons "hop" (.obj (.cons "diff_count" (.num 2) .nil)) .nil)) .nil)),
       none,
       some (.cons "timestamp" (.num 1700000500) .nil),
       some (.cons "timestamp" (.num 946684800) .nil)] 8 =
    [{ week_start := "1999-12-27", total_runs := 1, corrupt_runs := 0 },
     { week_start := "2023-11-13", total_runs := 2, corrupt_runs := 1 }] := by decide

example :
    trendSpec
      [some (.cons "timestamp" (.num 1700000000)
         (.cons "diff_summary" (.obj (.cons "hop" (.obj (.cons "diff_count" (.num 2) .nil)) .nil)) .nil)),
       none,
       some (.cons "timestamp" (.num 1700000500) .nil),
       some (.cons "timestamp" (.num 946684800) .nil)] 1 =
    [{ week_start := "2023-11-13", total_runs := 2, corrupt_runs := 1 }] := by decide

theorem addRecord_eq_validRecord (acc : List (String × Nat × Nat))
    (rec : Option JObj) :
    addRecord acc rec = match validRecord rec with
      | none => acc
      | some wc => bump acc wc.1 wc.2 := by
  cases rec with
  | none => rfl
  | some metadata =>
    simp only [addRecord, validRecord]
    by_cases ht : jNum (oGet metadata "timestamp" (.num 0)) = 0
    · simp [ht]
    · simp only [ht, if_false]
      cases get_week_key (jNum (oGet metadata "timestamp" (.num 0))) <;> simp

theorem foldl_addRecord_eq (records : List (Option JObj)) :
    ∀ acc, records.foldl addRecord acc =
      (validWeekKeys records).foldl (fun a wc => bump a wc.1 wc.2) acc := by
  induction records with
  | nil => intro acc; rfl
  | cons rec rest ih =>
    intro acc
    simp only [List.foldl_cons, validWeekKeys, List.filterMap_cons]
    rw [addRecord_eq_validRecord]
    cases hv : validRecord rec with
    | none => simpa [validWeekKeys] using ih acc
    | some wc => simpa [validWeekKeys] using ih (bump acc wc.1 wc.2)

theorem bump_lookup_self : ∀ (acc : List (String × Nat × Nat)) (k : String) (c : Bool),
    (bump acc k c).lookup k =
      match acc.lookup k with
      | some tc => some (tc.1 + 1, if c then tc.2 + 1 else tc.2)
      | none => some (1, if c then 1 else 0)
  | [], k, c => by simp [bump, List.lookup]
  | (k2, t, cr) :: rest, k, c => by
      by_cases h : k2 = k
      · subst h
        simp [bump, List.lookup]
      · have hk : (k == k2) = false := beq_eq_false_iff_ne.mpr (Ne.symm h)
        simp only [bump, if_neg h, List.lookup, hk]
        exact bump_lookup_self rest k c

theorem bump_lookup_other : ∀ (acc : List (String × Nat × Nat)) (k w : String)
    (c : Bool), w ≠ k → (bump acc k c).lookup w = acc.lookup w
  | [], k, w, c, h => by
      have hk : (w == k) = false := beq_eq_false_iff_ne.mpr h
      simp [bump, List.lookup, hk]
  | (k2, t, cr) :: rest, k, w, c, h => by
      by_cases h2 : k2 = k
      · subst h2
        have hw : (w == k2) = false := beq_eq_false_iff_ne.mpr h
        simp [bump, List.lookup, hw]
      · simp only [bump, if_neg h2, List.lookup]
        by_cases hw : w = k2
        · simp [hw]
        · have hw2 : (w == k2) = false := beq_eq_false_iff_ne.mpr hw
          simp [hw2, bump_lookup_other rest k w c h]

theorem bump_keys : ∀ (acc : List (String × Nat × Nat)) (k : String) (c : Bool),
    (bump acc k c).map Prod.fst =
      if k ∈ acc.map Prod.fst then acc.map Prod.fst else acc.map Prod.fst ++ [k]
  | [], k, c => by simp [bump]
  | (k2, t, cr) :: rest, k, c => by
      by_cases h : k2 = k
      · subst h
        simp [bump]
      · simp only [bump, if_neg h, List.map_cons]
        rw [bump_keys rest k c]
        by_cases hm : k ∈ rest.map Prod.fst
        · simp [hm, Ne.symm h]
        · simp [hm, Ne.symm h]

theorem foldBump_lookup (ks : List (String × Bool)) :
    ∀ (acc : List (String × Nat × Nat)) (w : String),
    (ks.foldl (fun a wc => bump a wc.1 wc.2) acc).lookup w =
      match acc.lookup w with
      | some tc => some (tc.1 + ks.countP (fun r => r.1 == w),
                         tc.2 + ks.countP (fun r => r.1 == w && r.2))
      | none =>
        if w ∈ ks.map Prod.fst
        then some (ks.countP (fun r => r.1 == w),
                   ks.countP (fun r => r.1 == w && r.2))
        else none := by
  induction ks with
  | nil =>
    intro acc w
    cases hacc : acc.lookup w <;> simp [hacc]
  | cons wc rest ih =>
    intro acc w
    simp only [List.foldl_cons]
    rw [ih (bump acc wc.1 wc.2) w]
    by_cases hw : wc.1 = w
    · rw [show (bump acc wc.1 wc.2) = bump acc w wc.2 by rw [hw]]
      rw [bump_lookup_self acc w wc.2]
      have hp : (wc.1 == w) = true := beq_iff_eq.mpr hw
      cases hacc : acc.lookup w with
      | some tc =>
        simp only [List.countP_cons, hp, if_true, Bool.true_and]
        cases hc : wc.2 <;> simp [hc] <;> omega
      | none =>
        simp only [List.countP_cons, hp, if_true, Bool.true_and, List.map_cons,
          List.mem_cons, hw, true_or, if_true]
        cases hc : wc.2 <;> simp [hc] <;> omega
    · rw [bump_lookup_other acc wc.1 w wc.2 (Ne.symm hw)]
      have hp : (wc.1 == w) = false := beq_eq_false_iff_ne.mpr hw
      cases hacc : acc.lookup w with
      | some tc => simp [List.countP_cons, hp]
      | none =>
        simp only [List.countP_cons, hp, if_false, Bool.false_and, List.map_cons,
          List.mem_cons]
        have : (w = wc.1) = False := by simp [Ne.symm hw]
        simp [Ne.symm hw, hp]

theorem firstOccurAux_congr (seen seen2 : List String)
    (h : ∀ x, x ∈ seen ↔ x ∈ seen2) :
    ∀ l, firstOccurAux seen l = firstOccurAux seen2 l
  | [] => rfl
  | k :: rest => by
      by_cases hk : k ∈ seen
      · simp only [firstOccurAux, if_pos hk, if_pos ((h k).mp hk)]
        exact firstOccurAux_congr seen seen2 h rest
      · have hk2 : k ∉ seen2 := fun hc => hk ((h k).mpr hc)
        simp only [firstOccurAux, if_neg hk, if_neg hk2]
        rw [firstOccurAux_congr (k :: seen) (k :: seen2) (by intro x; simp [h x]) rest]

theorem mem_of_mem_firstOccurAux (x : String) :
    ∀ (seen l : List String), x ∈ firstOccurAux seen l → x ∈ l
  | seen, [], h => by simp [firstOccurAux] at h
  | seen, k :: rest, h => by
      by_cases hk : k ∈ seen
      · simp only [firstOccurAux, if_pos hk] at h
        exact List.mem_cons_of_mem k (mem_of_mem_firstOccurAux x seen rest h)
      · simp only [firstOccurAux, if_neg hk, List.mem_cons] at h
        rcases h with h | h
        · simp [h]
        · exact List.mem_cons_of_mem k (mem_of_mem_firstOccurAux x (k :: seen) rest h)

theorem foldBump_keys (ks : List (String × Bool)) :
    ∀ (acc : List (String × Nat × Nat)),
    (ks.foldl (fun a wc => bump a wc.1 wc.2) acc).map Prod.fst =
      acc.map Prod.fst ++ firstOccurAux (acc.map Prod.fst) (ks.map Prod.fst) := by
  induction ks with
  | nil => intro acc; simp [firstOccurAux]
  | cons wc rest ih =>
    intro acc
    simp only [List.foldl_cons, List.map_cons, firstOccurAux]
    rw [ih (bump acc wc.1 wc.2), bump_keys]
    by_cases hin : wc.1 ∈ acc.map Prod.fst
    · simp [hin]
    · simp only [hin, if_neg, if_false]
      rw [firstOccurAux_congr (acc.map Prod.fst ++ [wc.1]) (wc.1 :: acc.map Prod.fst)
        (by intro x; simp [or_comm]) (rest.map Prod.fst)]
      simp

theorem filterMap_eq_map_of_forall {α β : Type} (f : α → Option β) (g : α → β) :
    ∀ (l : List α), (∀ x ∈ l, f x = some (g x)) → l.filterMap f = l.map g
  | [], _ => rfl
  | x :: rest, h => by
      rw [List.filterMap_cons, h x (by simp), List.map_cons,
        filterMap_eq_map_of_forall f g rest (fun y hy => h y (by simp [hy]))]

theorem insertByLt_map {α β : Type} (g : α → β) (ltA : α → α → Bool)
    (ltB : β → β → Bool) (h : ∀ a b, ltB (g a) (g b) = ltA a b) (x : α) :
    ∀ l, insertByLt ltB (g x) (l.map g) = (insertByLt ltA x l).map g
  | [] => rfl
  | y :: ys => by
      simp only [List.map_cons, insertByLt, h y x]
      by_cases hlt : ltA y x
      · simp [hlt, insertByLt_map g ltA ltB h x ys]
      · simp [hlt]

theorem sortByLt_map {α β : Type} (g : α → β) (ltA : α → α → Bool)
    (ltB : β → β → Bool) (h : ∀ a b, ltB (g a) (g b) = ltA a b) :
    ∀ l, sortByLt ltB (l.map g) = (sortByLt ltA l).map g
  | [] => rfl
  | x :: xs => by
      simp only [List.map_cons, sortByLt]
      rw [sortByLt_map g ltA ltB h xs, insertByLt_map g ltA ltB h x]

/-- C9: `trend_report` buckets each loadable record with a non-zero,
in-range timestamp by the ISO date of the Monday of its week, counts
per week the total records and those with a positive `diff_count`
somewhere in `diff_summary`, restricts the output to the most recent
`weeks` week keys by descending order and presents them ascending —
exactly the claim-side reference `trendSpec`; the `weeks` argument of
the Python signature defaults to 8 (`trend_report_default`). -/
theorem C9_trend_report_buckets_and_restricts
    (records : List (Option JObj)) (weeks : Nat) :
    trend_report records weeks = trendSpec records weeks ∧
    trend_report_default records = trend_report records 8 := by
  refine ⟨?_, rfl⟩
  unfold trend_report trendSpec
  rw [foldl_addRecord_eq]
  set km := validWeekKeys records with hkm
  set wd := km.foldl (fun a wc => bump a wc.1 wc.2) [] with hwd
  have hkeys : wd.map Prod.fst = firstOccur (km.map Prod.fst) := by
    rw [hwd, foldBump_keys]
    simp [firstOccur]
  by_cases hempty : wd.isEmpty
  · have hnil : wd = [] := List.isEmpty_iff.mp hempty
    have hfo : firstOccur (km.map Prod.fst) = [] := by
      rw [← hkeys, hnil]
      rfl
    simp [hnil, hfo, sortByLt]
  · simp only [hempty, if_false]
    have hforall : ∀ w ∈ (sortByLt (fun a b => strLtB b a) (wd.map Prod.fst)).take weeks,
        (wd.lookup w).map (fun c => (w, c)) =
          some (w, km.countP (fun r => r.1 == w),
            km.countP (fun r => r.1 == w && r.2)) := by
      intro w hw
      have hw2 : w ∈ wd.map Prod.fst :=
        (sortByLt_perm _ _).mem_iff.mp (List.mem_of_mem_take hw)
      have hw3 : w ∈ km.map Prod.fst := by
        rw [hkeys] at hw2
        exact mem_of_mem_firstOccurAux w [] _ hw2
      rw [hwd, foldBump_lookup km [] w]
      simp [hw3]
    rw [filterMap_eq_map_of_forall _
      (fun w => (w, km.countP (fun r => r.1 == w),
        km.countP (fun r => r.1 == w && r.2))) _ hforall]
    simp only [Bool.false_eq_true, if_false]
    rw [List.map_map, hkeys]
    exact sortByLt_map (trendRow km)
      (fun a b => strLtB a b)
      (fun a b => strLtB a.week_start b.week_start)
      (fun a b => rfl)
      ((sortByLt (fun a b => strLtB b a) (firstOccur (km.map Prod.fst))).take weeks)

/-!
Claim C10: session-name validation on `CaptureSession` construction.
The capture-session module (`replay/capture/session.py`) is not among
the sources — only its tests are — so its constructor contract is
modelled from the spec.
-/

/-- Modelled from the spec: the character class `[A-Za-z0-9_-]` a
session name must consist of (the capture-session module
`replay.capture.session` is absent from the sources). -/
def isSessionNameChar (c : Char) : Bool :=
  (decide ('A' ≤ c) && decide (c ≤ 'Z')) ||
    (decide ('a' ≤ c) && decide (c ≤ 'z')) ||
    (decide ('0' ≤ c) && decide (c ≤ '9')) ||
    decide (c = '_') || decide (c = '-')

/-- Modelled from the spec: a valid session name is a non-empty string
matching `[A-Za-z0-9_-]+`. -/
def validSessionName (name : String) : Bool :=
  !name.data.isEmpty && name.data.all isSessionNameChar

/-- Modelled from the spec: a capture session carries its immutable
name and capture directory (the sequencing state is irrelevant here). -/
structure CaptureSession where
  name : String
  capture_dir : String
  deriving DecidableEq, Repr

/-- Modelled from the spec: construction validates the name before any
filesystem path is built; `none` models the raised `ValueError`. -/
def CaptureSession.create (name capture_dir : String) : Option CaptureSession :=
  if validSessionName name then some ⟨name, capture_dir⟩ else none

/-- C10: construction succeeds exactly for the names made of at least
one character drawn from `[A-Za-z0-9_-]`; in particular every name
containing `/`, `.` (hence `..`) or whitespace is rejected, so an
invalid name never reaches the filesystem. -/
theorem C10_session_name_validation (name capture_dir : String) :
    ((CaptureSession.create name capture_dir).isSome = true ↔
      (name.data ≠ [] ∧ ∀ c ∈ name.data, isSessionNameChar c = true)) ∧
    ((∃ c ∈ name.data, c = '/' ∨ c = '.' ∨ c.isWhitespace = true) →
      CaptureSession.create name capture_dir = none) := by
  have hiff : validSessionName name = true ↔
      (name.data ≠ [] ∧ ∀ c ∈ name.data, isSessionNameChar c = true) := by
    unfold validSessionName
    rw [Bool.and_eq_true, Bool.not_eq_true', List.isEmpty_eq_false_iff_exists_mem,
      List.all_eq_true]
    constructor
    · rintro ⟨⟨x, hx⟩, h2⟩
      exact ⟨fun hnil => by simp [hnil] at hx, h2⟩
    · rintro ⟨h1, h2⟩
      refine ⟨?_, h2⟩
      cases hd : name.data with
      | nil => exact absurd hd h1
      | cons c cs => exact ⟨c, by simp [hd]⟩
  constructor
  · unfold CaptureSession.create
    by_cases h : validSessionName name = true
    · simp only [h, if_true, Option.isSome_some, true_iff]
      exact hiff.mp h
    · simp only [h, if_false, Bool.false_eq_true]
      simp only [Option.isSome_none, Bool.false_eq_true, false_iff]
      exact fun hc => h (hiff.mpr hc)
  · rintro ⟨c, hc, hbad⟩
    have hcf : isSessionNameChar c = false := by
      rcases hbad with h | h | h
      · subst h
        decide
      · subst h
        decide
      · have hw : ((c = ' ' ∨ c = '\t') ∨ c = '\r') ∨ c = '\n' := by
          simpa [Char.isWhitespace, Bool.or_eq_true, decide_eq_true_eq] using h
        rcases hw with ((h | h) | h) | h <;> subst h <;> decide
    have hval : validSessionName name = false := by
      rw [Bool.eq_false_iff]
      intro hv
      have := (hiff.mp hv).2 c hc
      rw [hcf] at this
      exact absurd this (by decide)
    unfold CaptureSession.create
    simp [hval]

/-- Witness for C10 at the test suite's own examples: a valid
dash/underscore name is accepted, a traversal name and a name with a
space are rejected. -/
theorem C10_session_name_validation_witness :
    ((CaptureSession.create "my-test_session-01" "captures").isSome = true) ∧
    CaptureSession.create "../../evil" "captures" = none ∧
    CaptureSession.create "bad name" "captures" = none :=
  ⟨(C10_session_name_validation "my-test_session-01" "captures").1.mpr
      ⟨by decide, by decide⟩,
   (C10_session_name_validation "../../evil" "captures").2 ⟨'.', by decide, by decide⟩,
   (C10_session_name_validation "bad name" "captures").2 ⟨' ', by decide, by decide⟩⟩
